import Mathlib

/-
  Verification of the mesh-viewer core (OFF mesh loading, fan triangulation,
  vertex-normal computation, face centers, and the explosion state machine).

  The embedding translates the C++ sources:
    - mesh.h            : Mesh constructor (triangulation), calculateNormals,
                          calculateFaceCenters, updateBuffers
    - explosion_effect.h: initializeExplosion, updateExplosion, resetExplosion
    - main.cpp          : the event handlers that drive the explosion effect
    - vertex_shader.glsl: the explode displacement applied per vertex

  glm float vectors are idealised as triples of real numbers; glm operations
  (cross, length, normalize) are translated literally, with sqrt the real
  square root.
-/

set_option maxHeartbeats 1000000

noncomputable section

/-- Model of glm::vec3: a 3D vector with real components. -/
@[ext]
structure Vec3 where
  x : ℝ
  y : ℝ
  z : ℝ

namespace Vec3

instance : Zero Vec3 := ⟨⟨0, 0, 0⟩⟩
instance : Add Vec3 := ⟨fun a b => ⟨a.x + b.x, a.y + b.y, a.z + b.z⟩⟩
instance : Sub Vec3 := ⟨fun a b => ⟨a.x - b.x, a.y - b.y, a.z - b.z⟩⟩
instance : Neg Vec3 := ⟨fun a => ⟨-a.x, -a.y, -a.z⟩⟩

/-- Scalar multiplication, modelling glm vector-times-scalar. -/
def smul (r : ℝ) (v : Vec3) : Vec3 := ⟨r * v.x, r * v.y, r * v.z⟩

@[simp] theorem zero_x : (0 : Vec3).x = 0 := rfl
@[simp] theorem zero_y : (0 : Vec3).y = 0 := rfl
@[simp] theorem zero_z : (0 : Vec3).z = 0 := rfl
@[simp] theorem add_x (a b : Vec3) : (a + b).x = a.x + b.x := rfl
@[simp] theorem add_y (a b : Vec3) : (a + b).y = a.y + b.y := rfl
@[simp] theorem add_z (a b : Vec3) : (a + b).z = a.z + b.z := rfl
@[simp] theorem sub_x (a b : Vec3) : (a - b).x = a.x - b.x := rfl
@[simp] theorem sub_y (a b : Vec3) : (a - b).y = a.y - b.y := rfl
@[simp] theorem sub_z (a b : Vec3) : (a - b).z = a.z - b.z := rfl
@[simp] theorem neg_x (a : Vec3) : (-a).x = -a.x := rfl
@[simp] theorem neg_y (a : Vec3) : (-a).y = -a.y := rfl
@[simp] theorem neg_z (a : Vec3) : (-a).z = -a.z := rfl
@[simp] theorem smul_x (r : ℝ) (v : Vec3) : (smul r v).x = r * v.x := rfl
@[simp] theorem smul_y (r : ℝ) (v : Vec3) : (smul r v).y = r * v.y := rfl
@[simp] theorem smul_z (r : ℝ) (v : Vec3) : (smul r v).z = r * v.z := rfl

@[simp] theorem mk_add_mk (ax ay az bx by' bz : ℝ) :
    (⟨ax, ay, az⟩ + ⟨bx, by', bz⟩ : Vec3) = ⟨ax + bx, ay + by', az + bz⟩ := rfl

@[simp] theorem mk_sub_mk (ax ay az bx by' bz : ℝ) :
    (⟨ax, ay, az⟩ - ⟨bx, by', bz⟩ : Vec3) = ⟨ax - bx, ay - by', az - bz⟩ := rfl

@[simp] theorem smul_mk (r ax ay az : ℝ) :
    smul r (⟨ax, ay, az⟩ : Vec3) = ⟨r * ax, r * ay, r * az⟩ := rfl

instance : AddCommMonoid Vec3 where
  add_assoc a b c := by ext <;> simp <;> ring
  zero_add a := by ext <;> simp
  add_zero a := by ext <;> simp
  add_comm a b := by ext <;> simp <;> ring
  nsmul n v := smul (n : ℝ) v
  nsmul_zero v := by ext <;> simp
  nsmul_succ n v := by ext <;> simp <;> ring

theorem smul_add_smul (r s : ℝ) (v : Vec3) :
    smul (r + s) v = smul r v + smul s v := by
  ext <;> simp <;> ring

@[simp] theorem smul_zero_left (v : Vec3) : smul 0 v = 0 := by
  ext <;> simp

@[simp] theorem smul_one_left (v : Vec3) : smul 1 v = v := by
  ext <;> simp

@[simp] theorem smul_zero_right (r : ℝ) : smul r (0 : Vec3) = 0 := by
  ext <;> simp

/-- Dot product, modelling glm::dot. -/
def dot (a b : Vec3) : ℝ := a.x * b.x + a.y * b.y + a.z * b.z

/-- Cross product, modelling glm::cross. -/
def cross (a b : Vec3) : Vec3 :=
  ⟨a.y * b.z - a.z * b.y, a.z * b.x - a.x * b.z, a.x * b.y - a.y * b.x⟩

/-- Euclidean norm, modelling glm::length. -/
def length (v : Vec3) : ℝ := Real.sqrt (dot v v)

/-- Normalisation, modelling glm::normalize: the vector divided by its norm. -/
def normalize (v : Vec3) : Vec3 := smul (1 / length v) v

theorem dot_self_nonneg (v : Vec3) : 0 ≤ dot v v := by
  have hx : 0 ≤ v.x * v.x := mul_self_nonneg _
  have hy : 0 ≤ v.y * v.y := mul_self_nonneg _
  have hz : 0 ≤ v.z * v.z := mul_self_nonneg _
  unfold dot; linarith

theorem length_nonneg (v : Vec3) : 0 ≤ length v := Real.sqrt_nonneg _

/-- Evaluation rule for the norm: if the squared norm is a perfect square of a
nonnegative real, the norm is its root. -/
theorem length_eval (v : Vec3) (r : ℝ) (hr : 0 ≤ r) (h : dot v v = r ^ 2) :
    length v = r := by
  rw [length, h, Real.sqrt_sq hr]

@[simp] theorem length_zero : length (0 : Vec3) = 0 := by
  have : dot (0 : Vec3) (0 : Vec3) = 0 ^ 2 := by unfold dot; norm_num
  rw [length_eval _ 0 le_rfl this]

theorem dot_self_pos_of_length_pos (v : Vec3) (h : 0 < length v) : 0 < dot v v := by
  rcases lt_or_eq_of_le (dot_self_nonneg v) with hlt | heq
  · exact hlt
  · exfalso
    rw [length, ← heq, Real.sqrt_zero] at h
    exact lt_irrefl 0 h

/-- A vector with positive norm normalises to a unit vector. -/
theorem dot_normalize_self (v : Vec3) (h : 0 < length v) :
    dot (normalize v) (normalize v) = 1 := by
  have hq : 0 < dot v v := dot_self_pos_of_length_pos v h
  have hsq : length v ^ 2 = dot v v := Real.sq_sqrt (dot_self_nonneg v)
  have hl : length v ≠ 0 := ne_of_gt h
  unfold normalize smul dot at *
  simp only
  field_simp
  nlinarith [hsq]

theorem length_normalize (v : Vec3) (h : 0 < length v) :
    length (normalize v) = 1 := by
  rw [length, dot_normalize_self v h, Real.sqrt_one]

/-- Monotone comparison of a norm against a nonnegative bound. -/
theorem length_le_of_dot_le (v : Vec3) (c : ℝ) (hc : 0 ≤ c) (h : dot v v ≤ c ^ 2) :
    length v ≤ c := by
  have := Real.sqrt_le_sqrt h
  rwa [Real.sqrt_sq hc] at this

end Vec3

/-! ## Mesh construction (mesh.h)

The Mesh constructor copies the OFF vertex positions and fan-triangulates
every polygon:

  for (int j = 1; j < polygon.noSides - 1; j++) \{
      indices.push_back(polygon.v[0]);
      indices.push_back(polygon.v[j]);
      indices.push_back(polygon.v[j + 1]);
  \}
-/

/-- A triangle of the index buffer: three vertex indices. -/
abbrev Tri := ℕ × ℕ × ℕ

/-- Fan triangulation of one polygon, from the Mesh constructor loop: for
j = 1 .. noSides − 2 push v[0], v[j], v[j+1] onto the flat index buffer. -/
def triangulatePoly (v : List ℕ) : List ℕ :=
  (List.range (v.length - 2)).flatMap (fun j => [v.getD 0 0, v.getD (j + 1) 0, v.getD (j + 2) 0])

/-- The whole index buffer: the triangulations of all polygons, concatenated
in polygon order (the outer loop of the Mesh constructor). -/
def buildIndices (polys : List (List ℕ)) : List ℕ :=
  polys.flatMap triangulatePoly

/-- Grouping of the flat index buffer into consecutive triples, as the loops
with step 3 in calculateNormals and calculateFaceCenters read it. -/
def triples : List ℕ → List Tri
  | a :: b :: c :: rest => (a, b, c) :: triples rest
  | _ => []

/-- Indexing into a position array, modelling vertices[i].position. -/
def posAt (pos : List Vec3) (i : ℕ) : Vec3 := pos.getD i 0

/-! ## Normal computation (mesh.h, calculateNormals) -/

/-- The per-face normal computed inside the accumulation loop:

  glm::vec3 faceNormal = glm::normalize(glm::cross(edge1, edge2));

with edge1 = v2 − v1 and edge2 = v3 − v1. Note the normalization happens
before accumulation. -/
def faceNormal (pos : List Vec3) (t : Tri) : Vec3 :=
  Vec3.normalize (Vec3.cross (posAt pos t.2.1 - posAt pos t.1) (posAt pos t.2.2 - posAt pos t.1))

/-- In-place addition at one slot of the normal array (vertices[idx].normal += w). -/
def addAt (l : List Vec3) (i : ℕ) (w : Vec3) : List Vec3 :=
  l.set i (l.getD i 0 + w)

/-- One iteration of the accumulation loop: add the face normal of triangle t
to the normals of its three vertices. -/
def accumStep (pos : List Vec3) (ns : List Vec3) (t : Tri) : List Vec3 :=
  addAt (addAt (addAt ns t.1 (faceNormal pos t)) t.2.1 (faceNormal pos t)) t.2.2 (faceNormal pos t)

/-- The accumulation phase of calculateNormals: normals all initialised to
zero, then every triangle adds its (normalized) face normal to its three
vertices. -/
def accumNormals (pos : List Vec3) (tris : List Tri) : List Vec3 :=
  tris.foldl (accumStep pos) (List.replicate pos.length 0)

/-- The final pass of calculateNormals on one vertex:

  if (glm::length(vertices[i].normal) > 0.0001f)
      vertices[i].normal = glm::normalize(vertices[i].normal);

A vertex whose accumulated normal is not longer than the threshold keeps the
accumulated value unchanged. -/
def finalizeNormal (v : Vec3) : Vec3 :=
  if 1 / 10000 < Vec3.length v then Vec3.normalize v else v

/-- Mesh::calculateNormals, as a function from positions and the flat index
buffer to the vertex-normal array. -/
def calculateNormals (pos : List Vec3) (indices : List ℕ) : List Vec3 :=
  (accumNormals pos (triples indices)).map finalizeNormal

/-! ## Face centers (mesh.h, calculateFaceCenters) -/

/-- Centroid of a triangle, from calculateFaceCenters:
center = (p1 + p2 + p3) / 3. -/
def centroid (pos : List Vec3) (t : Tri) : Vec3 :=
  Vec3.smul (1 / 3) (posAt pos t.1 + posAt pos t.2.1 + posAt pos t.2.2)

/-- One iteration of the calculateFaceCenters loop: the centroid of triangle t
is ASSIGNED to the faceCenter slot of each of its three vertices
(vertices[idx].faceCenter = center), overwriting any earlier value. -/
def fcStep (pos : List Vec3) (fc : List Vec3) (t : Tri) : List Vec3 :=
  ((fc.set t.1 (centroid pos t)).set t.2.1 (centroid pos t)).set t.2.2 (centroid pos t)

/-- Mesh::calculateFaceCenters: fold the assignment loop over all triangles,
starting from the faceCenter array fc as it was before the pass. -/
def calculateFaceCenters (pos : List Vec3) (fc : List Vec3) (tris : List Tri) : List Vec3 :=
  tris.foldl (fcStep pos) fc

/-- Boolean test that a triangle is incident to vertex v. -/
def triHas (v : ℕ) (t : Tri) : Bool :=
  t.1 == v || t.2.1 == v || t.2.2 == v

/-- The last triangle in buffer order that is incident to vertex v, if any. -/
def lastIncident (v : ℕ) (tris : List Tri) : Option Tri :=
  tris.reverse.find? (triHas v)

/-- Number of occurrences of vertex v among the three corners of triangle t
(a corner repeated by a degenerate index triple counts each time, exactly as
the three += statements of the accumulation loop execute each time). -/
def occ (v : ℕ) (t : Tri) : ℕ :=
  (if t.1 = v then 1 else 0) + (if t.2.1 = v then 1 else 0) + (if t.2.2 = v then 1 else 0)

/-! ## Explosion state machine (explosion_effect.h)

The C++ keys snapshots by OffModel pointer in a global map; each model
interacts only with its own entry, so the embedding carries the snapshot of
the one model under consideration as an Option. The live vertex array and
the snapshot both have length numberOfVertices (the vertex count is fixed at
load and never changes), so the loops bounded by numberOfVertices are
modelled as maps over the snapshot list. -/

/-- initializeExplosion: a no-op if a snapshot already exists, otherwise the
current positions are captured as the baseline. -/
def initializeExplosion (pos : List Vec3) (snap : Option (List Vec3)) : Option (List Vec3) :=
  match snap with
  | some orig => some orig
  | none => some pos

/-- The explosion origin: the unweighted mean of the snapshot positions
(center accumulated componentwise, then divided by numberOfVertices). -/
def explosionCenter (orig : List Vec3) : Vec3 :=
  Vec3.smul (1 / (orig.length : ℝ)) orig.sum

/-- The body of the per-vertex explosion loop:

  direction = original − center; distance = length(direction);
  if (distance > 0.0001f) direction = normalize(direction);
  else direction = (0, 1, 0);
  new position = original + direction * factor. -/
def explodeVertex (center : Vec3) (factor : ℝ) (o : Vec3) : Vec3 :=
  let direction := o - center
  let dir : Vec3 :=
    if 1 / 10000 < Vec3.length direction then Vec3.normalize direction else ⟨0, 1, 0⟩
  o + Vec3.smul factor dir

/-- updateExplosion: with no snapshot present it only initializes (capturing
the current positions) and returns at once, leaving the positions untouched;
with a snapshot present every vertex is recomputed from its baseline. The
trailing computeNormals call touches only the normals, not the positions,
so it does not appear in this position-level state. -/
def updateExplosion (pos : List Vec3) (snap : Option (List Vec3)) (factor : ℝ) :
    List Vec3 × Option (List Vec3) :=
  match snap with
  | none => (pos, initializeExplosion pos none)
  | some orig => (orig.map (explodeVertex (explosionCenter orig) factor), some orig)

/-- resetExplosion: a silent no-op with no snapshot; otherwise every vertex
is restored to its snapshot baseline (again followed by a computeNormals
call that leaves positions untouched). -/
def resetExplosion (pos : List Vec3) (snap : Option (List Vec3)) :
    List Vec3 × Option (List Vec3) :=
  match snap with
  | none => (pos, none)
  | some orig => (orig, some orig)

/-! ## Whole-mesh state and the operations that run after load -/

/-- Per-vertex record uploaded to the GPU, modelling struct MeshVertex. -/
structure MeshVertex where
  position : Vec3
  normal : Vec3
  faceCenter : Vec3

/-- The mesh-level state after load: the CPU arrays of the Mesh object plus
the explosion snapshot for its OffModel. -/
structure MeshState where
  positions : List Vec3
  normals : List Vec3
  faceCenters : List Vec3
  indices : List ℕ
  snapshot : Option (List Vec3)

/-- The operations the program can run on a loaded mesh. -/
inductive MeshOp where
  | calcNormals : MeshOp
  | calcFaceCenters : MeshOp
  | explode : ℝ → MeshOp
  | reset : MeshOp

/-- Effect of one operation on the mesh state. -/
def applyOp (s : MeshState) : MeshOp → MeshState
  | MeshOp.calcNormals =>
      { s with normals := calculateNormals s.positions s.indices }
  | MeshOp.calcFaceCenters =>
      { s with faceCenters := calculateFaceCenters s.positions s.faceCenters (triples s.indices) }
  | MeshOp.explode f =>
      let r := updateExplosion s.positions s.snapshot f
      { s with positions := r.1, snapshot := r.2 }
  | MeshOp.reset =>
      let r := resetExplosion s.positions s.snapshot
      { s with positions := r.1, snapshot := r.2 }

/-- Running a sequence of operations. -/
def runOps (s : MeshState) (ops : List MeshOp) : MeshState :=
  ops.foldl applyOp s

/-- An OFF model as delivered by the loader: vertex positions and polygons
as index sequences. -/
structure OffModelData where
  verts : List Vec3
  polygons : List (List ℕ)

/-- Modelled from the spec: the loader (OFFReader.h, not part of these
sources) fails with a FormatError on degenerate polygons and out-of-range
vertex indices, so a successfully loaded model satisfies: every polygon has
at least 3 sides and every polygon index is below the vertex count. -/
def ValidOff (m : OffModelData) : Prop :=
  ∀ p ∈ m.polygons, 3 ≤ p.length ∧ ∀ i ∈ p, i < m.verts.length

/-- The Mesh constructor: positions copied from the OFF model, the index
buffer fan-triangulated, normals and face centers computed, no snapshot yet. -/
def loadMesh (m : OffModelData) : MeshState :=
  { positions := m.verts
    normals := calculateNormals m.verts (buildIndices m.polygons)
    faceCenters :=
      calculateFaceCenters m.verts (List.replicate m.verts.length 0)
        (triples (buildIndices m.polygons))
    indices := buildIndices m.polygons
    snapshot := none }

/-- The index-buffer invariant of claim C5, together with the length
agreement between snapshot and live vertex array that the program maintains. -/
def IndexInv (s : MeshState) : Prop :=
  3 ∣ s.indices.length ∧
  (∀ i ∈ s.indices, i < s.positions.length) ∧
  (∀ o, s.snapshot = some o → o.length = s.positions.length)

/-! ## The application event loop (main.cpp) -/

/-- The pieces of application state relevant to rendering the mesh: the
vertex data uploaded to the GPU by setupMesh, the live OffModel positions
the explosion mutates, the snapshot store entry, and the explodeFactor
uniform value. -/
structure AppState where
  gpuVertices : List MeshVertex
  offPositions : List Vec3
  snapshot : Option (List Vec3)
  explodeFactor : ℝ

/-- The events of the render loop that involve the explosion effect: moving
the Explode Factor slider (or an animation tick), which calls
updateExplosion, and pressing N, which calls resetExplosion and zeroes the
factor. -/
inductive AppEvent where
  | slider : ℝ → AppEvent
  | keyN : AppEvent

/-- Effect of one event, exactly as the handlers in main.cpp execute it.
Neither handler calls updateBuffers, so gpuVertices is untouched. -/
def stepEvent (s : AppState) : AppEvent → AppState
  | AppEvent.slider f =>
      let r := updateExplosion s.offPositions s.snapshot f
      { s with explodeFactor := f, offPositions := r.1, snapshot := r.2 }
  | AppEvent.keyN =>
      let r := resetExplosion s.offPositions s.snapshot
      { s with offPositions := r.1, snapshot := r.2, explodeFactor := 0 }

/-- Running a sequence of events. -/
def runEvents (s : AppState) (es : List AppEvent) : AppState :=
  es.foldl stepEvent s

/-! ## Vertex shader (vertex_shader.glsl) -/

/-- The explode displacement of the vertex shader:

  vec3 direction = aPos - aFaceCenter;
  vec3 explodedPos = aPos + direction * explodeFactor; -/
def vertexShaderExplodedPos (aPos aFaceCenter : Vec3) (explodeFactor : ℝ) : Vec3 :=
  let direction := aPos - aFaceCenter
  aPos + Vec3.smul explodeFactor direction

/-! ## Helper lemmas on list indexing and the folds -/

theorem getD_set_self (l : List Vec3) (i : ℕ) (w : Vec3) (h : i < l.length) :
    (l.set i w).getD i 0 = w := by
  rw [List.getD_eq_getElem?_getD, List.getElem?_set_eq_of_lt w h]
  rfl

theorem getD_set_ne (l : List Vec3) {i j : ℕ} (w : Vec3) (h : i ≠ j) :
    (l.set i w).getD j 0 = l.getD j 0 := by
  rw [List.getD_eq_getElem?_getD, List.getElem?_set_ne h, ← List.getD_eq_getElem?_getD]

theorem getD_map_of_lt (f : Vec3 → Vec3) (l : List Vec3) (v : ℕ) (h : v < l.length) :
    (l.map f).getD v 0 = f (l.getD v 0) := by
  rw [List.getD_eq_getElem?_getD, List.getElem?_map,
    List.getElem?_eq_getElem h, List.getD_eq_getElem?_getD, List.getElem?_eq_getElem h]
  rfl

theorem getD_replicate_zero (n i : ℕ) :
    (List.replicate n (0 : Vec3)).getD i 0 = 0 := by
  rw [List.getD_eq_getElem?_getD, List.getElem?_replicate]
  split <;> rfl

@[simp] theorem addAt_length (l : List Vec3) (i : ℕ) (w : Vec3) :
    (addAt l i w).length = l.length := by
  simp [addAt]

theorem addAt_getD (l : List Vec3) (i v : ℕ) (w : Vec3) (hv : v < l.length) :
    (addAt l i w).getD v 0 = l.getD v 0 + (if i = v then w else 0) := by
  by_cases h : i = v
  · subst h
    rw [addAt, getD_set_self l i _ hv, if_pos rfl]
  · rw [addAt, getD_set_ne l _ h, if_neg h, add_zero]

@[simp] theorem accumStep_length (pos ns : List Vec3) (t : Tri) :
    (accumStep pos ns t).length = ns.length := by
  simp [accumStep]

theorem if_smul_ite (c : Prop) [Decidable c] (w : Vec3) :
    (if c then w else 0) = Vec3.smul (if c then (1 : ℝ) else 0) w := by
  split <;> simp

theorem accumStep_getD (pos ns : List Vec3) (t : Tri) (v : ℕ) (hv : v < ns.length) :
    (accumStep pos ns t).getD v 0 =
      ns.getD v 0 + Vec3.smul ((occ v t : ℝ)) (faceNormal pos t) := by
  have h1 : v < (addAt ns t.1 (faceNormal pos t)).length := by simpa using hv
  have h2 : v < (addAt (addAt ns t.1 (faceNormal pos t)) t.2.1 (faceNormal pos t)).length := by
    simpa using hv
  rw [accumStep, addAt_getD _ _ _ _ h2, addAt_getD _ _ _ _ h1, addAt_getD _ _ _ _ hv]
  rw [if_smul_ite, if_smul_ite, if_smul_ite, add_assoc, add_assoc,
    ← Vec3.smul_add_smul, ← Vec3.smul_add_smul]
  congr 1
  simp only [occ]
  push_cast
  ring_nf

theorem foldl_accumStep_length (pos : List Vec3) (tris : List Tri) (ns : List Vec3) :
    (tris.foldl (accumStep pos) ns).length = ns.length := by
  induction tris generalizing ns with
  | nil => rfl
  | cons t ts ih => rw [List.foldl_cons, ih]; simp

/-- The accumulated normal of vertex v is the start value plus the sum, over
the triangle list, of the (normalized) face normal weighted by how many
corners of the triangle carry index v. -/
theorem foldl_accumStep_getD (pos : List Vec3) (tris : List Tri) (ns : List Vec3)
    (v : ℕ) (hv : v < ns.length) :
    (tris.foldl (accumStep pos) ns).getD v 0 =
      ns.getD v 0 + (tris.map (fun t => Vec3.smul ((occ v t : ℝ)) (faceNormal pos t))).sum := by
  induction tris generalizing ns with
  | nil => simp
  | cons t ts ih =>
      rw [List.foldl_cons, ih _ (by simpa using hv), accumStep_getD pos ns t v hv,
        List.map_cons, List.sum_cons, add_assoc]

theorem accumNormals_length (pos : List Vec3) (tris : List Tri) :
    (accumNormals pos tris).length = pos.length := by
  rw [accumNormals, foldl_accumStep_length, List.length_replicate]

/-- Closed form of the accumulation phase. -/
theorem accumNormals_getD (pos : List Vec3) (tris : List Tri) (v : ℕ)
    (hv : v < pos.length) :
    (accumNormals pos tris).getD v 0 =
      (tris.map (fun t => Vec3.smul ((occ v t : ℝ)) (faceNormal pos t))).sum := by
  rw [accumNormals, foldl_accumStep_getD pos tris _ v (by simpa using hv),
    getD_replicate_zero, zero_add]

theorem calculateNormals_getD (pos : List Vec3) (indices : List ℕ) (v : ℕ)
    (hv : v < pos.length) :
    (calculateNormals pos indices).getD v 0 =
      finalizeNormal ((accumNormals pos (triples indices)).getD v 0) := by
  rw [calculateNormals, getD_map_of_lt _ _ _ (by rw [accumNormals_length]; exact hv)]

@[simp] theorem fcStep_length (pos fc : List Vec3) (t : Tri) :
    (fcStep pos fc t).length = fc.length := by
  simp [fcStep]

theorem calculateFaceCenters_length (pos fc : List Vec3) (tris : List Tri) :
    (calculateFaceCenters pos fc tris).length = fc.length := by
  unfold calculateFaceCenters
  induction tris generalizing fc with
  | nil => rfl
  | cons t ts ih => rw [List.foldl_cons, ih]; simp

theorem fcStep_getD (pos fc : List Vec3) (t : Tri) (v : ℕ) (hv : v < fc.length) :
    (fcStep pos fc t).getD v 0 =
      if triHas v t then centroid pos t else fc.getD v 0 := by
  obtain ⟨i1, i2, i3⟩ := t
  unfold fcStep
  by_cases h3 : i3 = v
  · subst h3
    rw [getD_set_self _ _ _ (by simpa using hv)]
    simp [triHas]
  · rw [getD_set_ne _ _ h3]
    by_cases h2 : i2 = v
    · subst h2
      rw [getD_set_self _ _ _ (by simpa using hv)]
      simp [triHas]
    · rw [getD_set_ne _ _ h2]
      by_cases h1 : i1 = v
      · subst h1
        rw [getD_set_self _ _ _ hv]
        simp [triHas]
      · rw [getD_set_ne _ _ h1]
        simp [triHas, h1, h2, h3]

@[simp] theorem lastIncident_nil (v : ℕ) : lastIncident v [] = none := rfl

theorem lastIncident_append_singleton (v : ℕ) (ts : List Tri) (t : Tri) :
    lastIncident v (ts ++ [t]) =
      if triHas v t then some t else lastIncident v ts := by
  unfold lastIncident
  rw [List.reverse_append]
  simp [List.find?]
  cases hp : triHas v t <;> simp [hp]

/-- Closed form of calculateFaceCenters at one slot: the centroid of the last
incident triangle in buffer order, or the pre-pass value if none exists. -/
theorem calculateFaceCenters_getD (pos fc : List Vec3) (tris : List Tri) (v : ℕ)
    (hv : v < fc.length) :
    (calculateFaceCenters pos fc tris).getD v 0 =
      ((lastIncident v tris).map (centroid pos)).getD (fc.getD v 0) := by
  induction tris using List.reverseRecOn with
  | nil => rfl
  | append_singleton ts t ih =>
      rw [calculateFaceCenters, List.foldl_append, List.foldl_cons, List.foldl_nil]
      rw [show ts.foldl (fcStep pos) fc = calculateFaceCenters pos fc ts from rfl]
      rw [fcStep_getD pos _ t v (by rw [calculateFaceCenters_length]; exact hv)]
      rw [lastIncident_append_singleton, ih]
      cases hp : triHas v t <;> simp [hp]

/-! ## Triangulation lemmas -/

theorem triples_flatMap {α : Type} (l : List α) (f g h : α → ℕ) :
    triples (l.flatMap fun a => [f a, g a, h a]) = l.map fun a => (f a, g a, h a) := by
  induction l with
  | nil => rfl
  | cons a as ih =>
      rw [List.flatMap_cons, List.map_cons, ← ih]
      rfl

theorem length_flatMap_triple {α : Type} (l : List α) (f g h : α → ℕ) :
    (l.flatMap fun a => [f a, g a, h a]).length = 3 * l.length := by
  induction l with
  | nil => rfl
  | cons a as ih =>
      rw [List.flatMap_cons, List.length_append, ih, List.length_cons]
      simp
      ring

theorem three_dvd_triangulatePoly (v : List ℕ) : 3 ∣ (triangulatePoly v).length := by
  rw [triangulatePoly, length_flatMap_triple]
  exact Dvd.intro _ rfl

theorem three_dvd_buildIndices (polys : List (List ℕ)) :
    3 ∣ (buildIndices polys).length := by
  induction polys with
  | nil => simp [buildIndices]
  | cons p ps ih =>
      rw [buildIndices, List.flatMap_cons, List.length_append]
      exact dvd_add (three_dvd_triangulatePoly p) ih

theorem mem_triangulatePoly {v : List ℕ} {i : ℕ} (h : i ∈ triangulatePoly v) : i ∈ v := by
  rw [triangulatePoly, List.mem_flatMap] at h
  obtain ⟨j, hj, hi⟩ := h
  rw [List.mem_range] at hj
  have hlen : j + 2 < v.length := by omega
  have h0 : 0 < v.length := by omega
  have h1 : j + 1 < v.length := by omega
  simp only [List.mem_cons, List.not_mem_nil, or_false] at hi
  rcases hi with rfl | rfl | rfl
  · rw [List.getD_eq_getElem _ _ h0]; exact List.getElem_mem h0
  · rw [List.getD_eq_getElem _ _ h1]; exact List.getElem_mem h1
  · rw [List.getD_eq_getElem _ _ hlen]; exact List.getElem_mem hlen

theorem mem_buildIndices {polys : List (List ℕ)} {i : ℕ} (h : i ∈ buildIndices polys) :
    ∃ p ∈ polys, i ∈ p := by
  rw [buildIndices, List.mem_flatMap] at h
  obtain ⟨p, hp, hi⟩ := h
  exact ⟨p, hp, mem_triangulatePoly hi⟩

/-! ## Claim C4: fan triangulation -/

/-- C4: for every polygon with vertex-index sequence v of length n at least 3,
the triangulation emits exactly the n − 2 triangles (v[0], v[i], v[i+1]) for
i = 1 .. n − 2 (here indexed by i − 1 over range (n − 2)), a fan from vertex 0
where each triangle consumes vertex 0 plus two consecutive boundary vertices;
no convexity or planarity validation is performed. -/
theorem c4_fan_triangulation (v : List ℕ) (_h : 3 ≤ v.length) :
    triples (triangulatePoly v) =
      (List.range (v.length - 2)).map
        (fun i => (v.getD 0 0, v.getD (i + 1) 0, v.getD (i + 2) 0)) ∧
    (triples (triangulatePoly v)).length = v.length - 2 := by
  refine ⟨?_, ?_⟩
  · rw [triangulatePoly, triples_flatMap]
  · rw [triangulatePoly, triples_flatMap, List.length_map, List.length_range]

/-- C4 witness: the fan triangulation of a concrete quadrilateral. -/
theorem c4_fan_triangulation_witness :
    3 ≤ ([10, 20, 30, 40] : List ℕ).length ∧
      (triples (triangulatePoly [10, 20, 30, 40]) =
        (List.range (([10, 20, 30, 40] : List ℕ).length - 2)).map
          (fun i => (([10, 20, 30, 40] : List ℕ).getD 0 0,
            ([10, 20, 30, 40] : List ℕ).getD (i + 1) 0,
            ([10, 20, 30, 40] : List ℕ).getD (i + 2) 0)) ∧
      (triples (triangulatePoly [10, 20, 30, 40])).length =
        ([10, 20, 30, 40] : List ℕ).length - 2) :=
  ⟨by decide, c4_fan_triangulation [10, 20, 30, 40] (by decide)⟩

/-! ## Claim C8: lazy initialization of the explosion -/

/-- C8: updateExplosion on a model with no snapshot auto-initializes it,
capturing the current positions as the baseline, and this first call leaves
the vertex positions untouched (no displacement), whatever the factor. -/
theorem c8_lazy_snapshot_capture (pos : List Vec3) (f : ℝ) :
    updateExplosion pos none f = (pos, some pos) := rfl

/-! ## Claim C7: explode / reset round trip -/

/-- C7: on an initialized model (snapshot orig), updateExplosion with factor
1.0 followed by resetExplosion restores every vertex position exactly to the
snapshot baseline (in the real-number model the restore is exact);
resetExplosion on an uninitialized model is a silent no-op. -/
theorem c7_roundtrip (pos orig : List Vec3) :
    resetExplosion (updateExplosion pos (some orig) 1).1
        (updateExplosion pos (some orig) 1).2 = (orig, some orig) ∧
      initializeExplosion pos none = some pos ∧
      resetExplosion pos none = (pos, none) :=
  ⟨rfl, rfl, rfl⟩

/-! ## Claim C10: the vertex shader explode displacement -/

/-- C10: the vertex shader computes the rendered position as
aPos + (aPos − aFaceCenter) * explodeFactor, independently of the CPU-side
explosion state, and with explodeFactor = 0 the rendered position equals the
buffered position aPos. -/
theorem c10_shader_explode (p c : Vec3) (f : ℝ) :
    vertexShaderExplodedPos p c f = p + Vec3.smul f (p - c) ∧
      vertexShaderExplodedPos p c 0 = p := by
  refine ⟨rfl, ?_⟩
  unfold vertexShaderExplodedPos
  ext <;> simp

/-! ## Claim C5: index-buffer invariant -/

theorem indexInv_applyOp (s : MeshState) (op : MeshOp) (h : IndexInv s) :
    IndexInv (applyOp s op) := by
  obtain ⟨h3, hb, hs⟩ := h
  cases op with
  | calcNormals => exact ⟨h3, hb, hs⟩
  | calcFaceCenters => exact ⟨h3, hb, hs⟩
  | explode f =>
      have hrw : applyOp s (MeshOp.explode f) =
          { s with positions := (updateExplosion s.positions s.snapshot f).1,
                   snapshot := (updateExplosion s.positions s.snapshot f).2 } := rfl
      cases hsnap : s.snapshot with
      | none =>
          rw [hrw, hsnap]
          exact ⟨h3, hb, fun o ho => by cases ho; rfl⟩
      | some orig =>
          have horig : orig.length = s.positions.length := hs orig hsnap
          rw [hrw, hsnap]
          refine ⟨h3, ?_, ?_⟩
          · intro i hi
            simp only [updateExplosion, List.length_map]
            rw [horig]
            exact hb i hi
          · intro o ho
            simp only [updateExplosion] at ho
            cases ho
            simp only [updateExplosion, List.length_map]
  | reset =>
      have hrw : applyOp s MeshOp.reset =
          { s with positions := (resetExplosion s.positions s.snapshot).1,
                   snapshot := (resetExplosion s.positions s.snapshot).2 } := rfl
      cases hsnap : s.snapshot with
      | none =>
          rw [hrw, hsnap]
          exact ⟨h3, hb, fun o ho => by cases ho⟩
      | some orig =>
          have horig : orig.length = s.positions.length := hs orig hsnap
          rw [hrw, hsnap]
          refine ⟨h3, ?_, ?_⟩
          · intro i hi
            simp only [resetExplosion]
            rw [horig]
            exact hb i hi
          · intro o ho
            simp only [resetExplosion] at ho
            cases ho
            rfl

/-- C5: after loading any valid OFF model, the index buffer length is
divisible by 3 and every index is strictly below the vertex count, and the
invariant persists through every sequence of subsequent operations (normal
recomputation, face-center recomputation, explosion updates and resets). -/
theorem c5_index_invariant (m : OffModelData) (hm : ValidOff m) (ops : List MeshOp) :
    IndexInv (runOps (loadMesh m) ops) := by
  have hload : IndexInv (loadMesh m) := by
    refine ⟨three_dvd_buildIndices m.polygons, ?_, ?_⟩
    · intro i hi
      obtain ⟨p, hp, hip⟩ := mem_buildIndices hi
      exact (hm p hp).2 i hip
    · intro o ho
      simp only [loadMesh] at ho
      cases ho
  rw [runOps]
  induction ops generalizing m with
  | nil => exact hload
  | cons op opsTail ih =>
      rw [List.foldl_cons]
      clear ih
      have hstep : IndexInv (applyOp (loadMesh m) op) := indexInv_applyOp _ op hload
      generalize hgen : applyOp (loadMesh m) op = s at hstep
      clear hgen hload hm
      induction opsTail generalizing s with
      | nil => exact hstep
      | cons op2 rest ih2 =>
          rw [List.foldl_cons]
          exact ih2 _ (indexInv_applyOp _ op2 hstep)

/-- A concrete tetrahedron model used as a witness input. -/
def tetraOff : OffModelData :=
  { verts := [⟨0, 0, 0⟩, ⟨1, 0, 0⟩, ⟨0, 1, 0⟩, ⟨0, 0, 1⟩]
    polygons := [[0, 1, 2], [0, 1, 3], [0, 2, 3], [1, 2, 3]] }

theorem tetraOff_valid : ValidOff tetraOff := by
  intro p hp
  have hlen : tetraOff.verts.length = 4 := rfl
  rw [hlen]
  fin_cases hp <;> exact ⟨by decide, by decide⟩

/-- C5 witness: the invariant holds for the loaded tetrahedron after a
subsequent explosion update and reset. -/
theorem c5_index_invariant_witness :
    ValidOff tetraOff ∧
      IndexInv (runOps (loadMesh tetraOff) [MeshOp.explode 1, MeshOp.reset]) :=
  ⟨tetraOff_valid, c5_index_invariant tetraOff tetraOff_valid [MeshOp.explode 1, MeshOp.reset]⟩

/-! ## Claim C1: the updateExplosion displacement formula -/

@[simp] theorem Vec3.sub_self (a : Vec3) : a - a = 0 := by
  ext <;> simp

/-- C1 (amended): for every initialized model, updateExplosion sets vertex i
to baseline + factor * d, where d = normalize(baseline − origin) when the
distance from baseline to the origin (the unweighted mean of the snapshot
positions) exceeds the threshold 1e-4, and d is the fixed default direction
(0,1,0) whenever the distance is at most 1e-4 — in particular for a vertex
coinciding with the origin; every coordinate is a well-defined real number. -/
theorem c1_update_characterization (pos orig : List Vec3) (f : ℝ) (i : ℕ)
    (hi : i < orig.length) :
    (updateExplosion pos (some orig) f).1.getD i 0 =
      orig.getD i 0 + Vec3.smul f
        (if 1 / 10000 < Vec3.length (orig.getD i 0 - explosionCenter orig)
         then Vec3.normalize (orig.getD i 0 - explosionCenter orig)
         else ⟨0, 1, 0⟩) ∧
    (orig.getD i 0 = explosionCenter orig →
      (updateExplosion pos (some orig) f).1.getD i 0 =
        orig.getD i 0 + Vec3.smul f ⟨0, 1, 0⟩) := by
  have hmap : (updateExplosion pos (some orig) f).1.getD i 0 =
      explodeVertex (explosionCenter orig) f (orig.getD i 0) := by
    show ((orig.map (explodeVertex (explosionCenter orig) f)).getD i 0) = _
    exact getD_map_of_lt _ _ _ hi
  refine ⟨by rw [hmap]; rfl, ?_⟩
  intro hco
  rw [hmap, explodeVertex]
  simp only [hco, Vec3.sub_self, Vec3.length_zero]
  rw [if_neg (by norm_num)]

/-- C1 witness: a two-vertex model with vertices at distance 1 from the
origin; vertex 0 is displaced along the normalized outward direction. -/
theorem c1_update_characterization_witness :
    0 < ([⟨-1, 0, 0⟩, ⟨1, 0, 0⟩] : List Vec3).length ∧
      ((updateExplosion [⟨-1, 0, 0⟩, ⟨1, 0, 0⟩] (some [⟨-1, 0, 0⟩, ⟨1, 0, 0⟩]) 1).1.getD 0 0 =
        ([⟨-1, 0, 0⟩, ⟨1, 0, 0⟩] : List Vec3).getD 0 0 + Vec3.smul 1
          (if 1 / 10000 <
              Vec3.length (([⟨-1, 0, 0⟩, ⟨1, 0, 0⟩] : List Vec3).getD 0 0 -
                explosionCenter [⟨-1, 0, 0⟩, ⟨1, 0, 0⟩])
           then Vec3.normalize (([⟨-1, 0, 0⟩, ⟨1, 0, 0⟩] : List Vec3).getD 0 0 -
                explosionCenter [⟨-1, 0, 0⟩, ⟨1, 0, 0⟩])
           else ⟨0, 1, 0⟩) ∧
      (([⟨-1, 0, 0⟩, ⟨1, 0, 0⟩] : List Vec3).getD 0 0 =
          explosionCenter [⟨-1, 0, 0⟩, ⟨1, 0, 0⟩] →
        (updateExplosion [⟨-1, 0, 0⟩, ⟨1, 0, 0⟩] (some [⟨-1, 0, 0⟩, ⟨1, 0, 0⟩]) 1).1.getD 0 0 =
          ([⟨-1, 0, 0⟩, ⟨1, 0, 0⟩] : List Vec3).getD 0 0 + Vec3.smul 1 ⟨0, 1, 0⟩)) :=
  ⟨by simp, c1_update_characterization _ _ 1 0 (by simp)⟩

/-- C1 counterexample: in a two-vertex model with baselines (0,0,0) and
(1e-4,0,0), vertex 1 does not coincide with the explosion origin
(the mean (5e-5,0,0)), yet updateExplosion with factor 1 does NOT move it to
baseline + normalize(baseline − origin) * factor: its distance to the origin
is 5e-5, below the 1e-4 threshold, so the code displaces it along (0,1,0)
instead. -/
theorem c1_counterexample :
    ([⟨0, 0, 0⟩, ⟨1 / 10000, 0, 0⟩] : List Vec3).getD 1 0 ≠
        explosionCenter [⟨0, 0, 0⟩, ⟨1 / 10000, 0, 0⟩] ∧
      (updateExplosion [⟨0, 0, 0⟩, ⟨1 / 10000, 0, 0⟩]
          (some [⟨0, 0, 0⟩, ⟨1 / 10000, 0, 0⟩]) 1).1.getD 1 0 ≠
        ([⟨0, 0, 0⟩, ⟨1 / 10000, 0, 0⟩] : List Vec3).getD 1 0 + Vec3.smul 1
          (Vec3.normalize (([⟨0, 0, 0⟩, ⟨1 / 10000, 0, 0⟩] : List Vec3).getD 1 0 -
            explosionCenter [⟨0, 0, 0⟩, ⟨1 / 10000, 0, 0⟩])) := by
  have hc : explosionCenter [⟨0, 0, 0⟩, ⟨1 / 10000, 0, 0⟩] = ⟨1 / 20000, 0, 0⟩ := by
    unfold explosionCenter
    simp [List.sum_cons, List.sum_nil]
    norm_num
  have hg : ([⟨0, 0, 0⟩, ⟨1 / 10000, 0, 0⟩] : List Vec3).getD 1 0 = ⟨1 / 10000, 0, 0⟩ := by
    simp [List.getD]
  have hd : (⟨1 / 10000, 0, 0⟩ : Vec3) - ⟨1 / 20000, 0, 0⟩ = ⟨1 / 20000, 0, 0⟩ := by
    simp
    norm_num
  have hL : Vec3.length ⟨1 / 20000, 0, 0⟩ = 1 / 20000 :=
    Vec3.length_eval _ _ (by norm_num) (by simp [Vec3.dot]; norm_num)
  have hupd : (updateExplosion [⟨0, 0, 0⟩, ⟨1 / 10000, 0, 0⟩]
      (some [⟨0, 0, 0⟩, ⟨1 / 10000, 0, 0⟩]) 1).1.getD 1 0 = ⟨1 / 10000, 1, 0⟩ := by
    rw [show (updateExplosion [⟨0, 0, 0⟩, ⟨1 / 10000, 0, 0⟩]
        (some [⟨0, 0, 0⟩, ⟨1 / 10000, 0, 0⟩]) 1).1 =
        ([⟨0, 0, 0⟩, ⟨1 / 10000, 0, 0⟩] : List Vec3).map
          (explodeVertex (explosionCenter [⟨0, 0, 0⟩, ⟨1 / 10000, 0, 0⟩]) 1) from rfl]
    rw [getD_map_of_lt _ _ _ (by simp), hg]
    simp only [explodeVertex, hc, hd, hL]
    rw [if_neg (by norm_num)]
    simp
  refine ⟨?_, ?_⟩
  · rw [hg, hc]
    intro hcontra
    have hx := congrArg Vec3.x hcontra
    simp only at hx
    norm_num at hx
  · rw [hupd, hg, hc, hd]
    unfold Vec3.normalize
    rw [hL]
    intro hcontra
    have hy := congrArg Vec3.y hcontra
    simp at hy

/-! ## Claim C2: per-triangle normal contributions -/

@[simp] theorem Vec3.cross_mk (ax ay az bx by' bz : ℝ) :
    Vec3.cross ⟨ax, ay, az⟩ ⟨bx, by', bz⟩ =
      ⟨ay * bz - az * by', az * bx - ax * bz, ax * by' - ay * bx⟩ := rfl

/-- C2 counterexample: for the single triangle with vertices (0,0,0), (2,0,0),
(0,2,0), the unnormalized cross product of the edges is (0,0,4), but the
normal accumulated at vertex 0 is the normalized value (0,0,1): the code
normalizes each face normal before adding it. -/
theorem c2_counterexample :
    (accumNormals [⟨0, 0, 0⟩, ⟨2, 0, 0⟩, ⟨0, 2, 0⟩] [(0, 1, 2)]).getD 0 0 ≠
      Vec3.cross
        (posAt [⟨0, 0, 0⟩, ⟨2, 0, 0⟩, ⟨0, 2, 0⟩] 1 - posAt [⟨0, 0, 0⟩, ⟨2, 0, 0⟩, ⟨0, 2, 0⟩] 0)
        (posAt [⟨0, 0, 0⟩, ⟨2, 0, 0⟩, ⟨0, 2, 0⟩] 2 - posAt [⟨0, 0, 0⟩, ⟨2, 0, 0⟩, ⟨0, 2, 0⟩] 0) := by
  have hcross :
      Vec3.cross
        (posAt [⟨0, 0, 0⟩, ⟨2, 0, 0⟩, ⟨0, 2, 0⟩] 1 - posAt [⟨0, 0, 0⟩, ⟨2, 0, 0⟩, ⟨0, 2, 0⟩] 0)
        (posAt [⟨0, 0, 0⟩, ⟨2, 0, 0⟩, ⟨0, 2, 0⟩] 2 - posAt [⟨0, 0, 0⟩, ⟨2, 0, 0⟩, ⟨0, 2, 0⟩] 0) =
        ⟨0, 0, 4⟩ := by
    simp [posAt, List.getD]
    norm_num
  have hL : Vec3.length ⟨0, 0, 4⟩ = 4 :=
    Vec3.length_eval _ _ (by norm_num) (by simp [Vec3.dot]; norm_num)
  have hfn : faceNormal [⟨0, 0, 0⟩, ⟨2, 0, 0⟩, ⟨0, 2, 0⟩] (0, 1, 2) = ⟨0, 0, 1⟩ := by
    unfold faceNormal
    rw [hcross]
    unfold Vec3.normalize
    rw [hL]
    simp
  have hacc : (accumNormals [⟨0, 0, 0⟩, ⟨2, 0, 0⟩, ⟨0, 2, 0⟩] [(0, 1, 2)]).getD 0 0 =
      ⟨0, 0, 1⟩ := by
    rw [accumNormals_getD _ _ 0 (by simp), List.map_cons, List.map_nil, List.sum_cons,
      List.sum_nil, hfn]
    norm_num [occ]
  rw [hacc, hcross]
  intro hcontra
  have hz := congrArg Vec3.z hcontra
  simp only at hz
  norm_num at hz

/-- C2 (amended): for each triangle (a,b,c) the contribution added to the
normals of a, b and c is the NORMALIZED cross product of edges b−a and c−a —
a unit vector whenever the cross product is nonzero — so every
(non-degenerate) triangle contributes the same weight regardless of its
area: the accumulated normal of vertex v is the sum over all triangles of
that unit face normal, counted once per corner carrying index v. -/
theorem c2_accum_normalized (pos : List Vec3) (tris : List Tri) (v : ℕ)
    (hv : v < pos.length) :
    (accumNormals pos tris).getD v 0 =
      (tris.map (fun t => Vec3.smul ((occ v t : ℝ)) (faceNormal pos t))).sum ∧
    ∀ t : Tri,
      0 < Vec3.length (Vec3.cross (posAt pos t.2.1 - posAt pos t.1)
          (posAt pos t.2.2 - posAt pos t.1)) →
      Vec3.length (faceNormal pos t) = 1 := by
  refine ⟨accumNormals_getD pos tris v hv, ?_⟩
  intro t ht
  exact Vec3.length_normalize _ ht

/-- C2 witness: the accumulated normal at vertex 0 of a concrete single
triangle mesh, obtained from the amended characterization. -/
theorem c2_accum_normalized_witness :
    0 < ([⟨0, 0, 0⟩, ⟨2, 0, 0⟩, ⟨0, 2, 0⟩] : List Vec3).length ∧
      ((accumNormals [⟨0, 0, 0⟩, ⟨2, 0, 0⟩, ⟨0, 2, 0⟩] [(0, 1, 2)]).getD 0 0 =
        (([(0, 1, 2)] : List Tri).map
          (fun t => Vec3.smul ((occ 0 t : ℝ))
            (faceNormal [⟨0, 0, 0⟩, ⟨2, 0, 0⟩, ⟨0, 2, 0⟩] t))).sum ∧
      ∀ t : Tri,
        0 < Vec3.length (Vec3.cross
            (posAt [⟨0, 0, 0⟩, ⟨2, 0, 0⟩, ⟨0, 2, 0⟩] t.2.1 -
              posAt [⟨0, 0, 0⟩, ⟨2, 0, 0⟩, ⟨0, 2, 0⟩] t.1)
            (posAt [⟨0, 0, 0⟩, ⟨2, 0, 0⟩, ⟨0, 2, 0⟩] t.2.2 -
              posAt [⟨0, 0, 0⟩, ⟨2, 0, 0⟩, ⟨0, 2, 0⟩] t.1)) →
        Vec3.length (faceNormal [⟨0, 0, 0⟩, ⟨2, 0, 0⟩, ⟨0, 2, 0⟩] t) = 1) :=
  ⟨by simp, c2_accum_normalized [⟨0, 0, 0⟩, ⟨2, 0, 0⟩, ⟨0, 2, 0⟩] [(0, 1, 2)] 0 (by simp)⟩

/-! ## Claim C6: final normalization pass -/

/-- C6 (amended): after the normal pass, the normal of vertex v is unit
length when the accumulated pre-normalization normal is longer than the
1e-4 threshold; otherwise it is left EQUAL to the accumulated vector itself
(which may be a tiny nonzero vector), and in particular it is the zero
vector when the accumulated sum is exactly zero. -/
theorem c6_normal_finalize (pos : List Vec3) (indices : List ℕ) (v : ℕ)
    (hv : v < pos.length) :
    (1 / 10000 < Vec3.length ((accumNormals pos (triples indices)).getD v 0) →
      Vec3.length ((calculateNormals pos indices).getD v 0) = 1) ∧
    (¬ 1 / 10000 < Vec3.length ((accumNormals pos (triples indices)).getD v 0) →
      (calculateNormals pos indices).getD v 0 =
        (accumNormals pos (triples indices)).getD v 0) ∧
    ((accumNormals pos (triples indices)).getD v 0 = 0 →
      (calculateNormals pos indices).getD v 0 = 0) := by
  rw [calculateNormals_getD pos indices v hv]
  refine ⟨?_, ?_, ?_⟩
  · intro hgt
    rw [finalizeNormal, if_pos hgt]
    exact Vec3.length_normalize _ (lt_trans (by norm_num) hgt)
  · intro hle
    rw [finalizeNormal, if_neg hle]
  · intro hzero
    rw [hzero, finalizeNormal, if_neg (by rw [Vec3.length_zero]; norm_num)]

/-- C6 witness: a single-triangle mesh whose accumulated normal at vertex 0
is the unit vector (0,0,1), above the threshold, so the final normal has
unit length. -/
theorem c6_normal_finalize_witness :
    0 < ([⟨0, 0, 0⟩, ⟨1, 0, 0⟩, ⟨0, 1, 0⟩] : List Vec3).length ∧
      ((1 / 10000 < Vec3.length
          ((accumNormals [⟨0, 0, 0⟩, ⟨1, 0, 0⟩, ⟨0, 1, 0⟩] (triples [0, 1, 2])).getD 0 0) →
        Vec3.length ((calculateNormals [⟨0, 0, 0⟩, ⟨1, 0, 0⟩, ⟨0, 1, 0⟩] [0, 1, 2]).getD 0 0) = 1) ∧
      (¬ 1 / 10000 < Vec3.length
          ((accumNormals [⟨0, 0, 0⟩, ⟨1, 0, 0⟩, ⟨0, 1, 0⟩] (triples [0, 1, 2])).getD 0 0) →
        (calculateNormals [⟨0, 0, 0⟩, ⟨1, 0, 0⟩, ⟨0, 1, 0⟩] [0, 1, 2]).getD 0 0 =
          (accumNormals [⟨0, 0, 0⟩, ⟨1, 0, 0⟩, ⟨0, 1, 0⟩] (triples [0, 1, 2])).getD 0 0) ∧
      ((accumNormals [⟨0, 0, 0⟩, ⟨1, 0, 0⟩, ⟨0, 1, 0⟩] (triples [0, 1, 2])).getD 0 0 = 0 →
        (calculateNormals [⟨0, 0, 0⟩, ⟨1, 0, 0⟩, ⟨0, 1, 0⟩] [0, 1, 2]).getD 0 0 = 0)) :=
  ⟨by simp, c6_normal_finalize [⟨0, 0, 0⟩, ⟨1, 0, 0⟩, ⟨0, 1, 0⟩] [0, 1, 2] 0 (by simp)⟩

/-- C6 counterexample: a four-vertex mesh with two nearly opposite triangles
at vertex 0. The two unit face normals sum to a tiny NONZERO accumulated
normal (length about 2e-5, below the 1e-4 threshold), which the final pass
leaves untouched: the final normal of vertex 0 is neither of unit length nor
the zero vector, refuting unit-or-exactly-zero. -/
theorem c6_counterexample :
    ¬ (Vec3.length ((calculateNormals
          [⟨0, 0, 0⟩, ⟨1, 0, 0⟩, ⟨0, 1, 0⟩, ⟨0, -9999999999, -200000⟩]
          [0, 1, 2, 0, 1, 3]).getD 0 0) = 1 ∨
        (calculateNormals
          [⟨0, 0, 0⟩, ⟨1, 0, 0⟩, ⟨0, 1, 0⟩, ⟨0, -9999999999, -200000⟩]
          [0, 1, 2, 0, 1, 3]).getD 0 0 = 0) := by
  have hfn1 : faceNormal [⟨0, 0, 0⟩, ⟨1, 0, 0⟩, ⟨0, 1, 0⟩, ⟨0, -9999999999, -200000⟩]
      (0, 1, 2) = ⟨0, 0, 1⟩ := by
    have hcross : Vec3.cross
        (posAt [⟨0, 0, 0⟩, ⟨1, 0, 0⟩, ⟨0, 1, 0⟩, ⟨0, -9999999999, -200000⟩] 1 -
          posAt [⟨0, 0, 0⟩, ⟨1, 0, 0⟩, ⟨0, 1, 0⟩, ⟨0, -9999999999, -200000⟩] 0)
        (posAt [⟨0, 0, 0⟩, ⟨1, 0, 0⟩, ⟨0, 1, 0⟩, ⟨0, -9999999999, -200000⟩] 2 -
          posAt [⟨0, 0, 0⟩, ⟨1, 0, 0⟩, ⟨0, 1, 0⟩, ⟨0, -9999999999, -200000⟩] 0) = ⟨0, 0, 1⟩ := by
      simp [posAt, List.getD]
    have hL : Vec3.length ⟨0, 0, 1⟩ = 1 :=
      Vec3.length_eval _ _ (by norm_num) (by norm_num [Vec3.dot])
    unfold faceNormal
    rw [hcross]
    unfold Vec3.normalize
    rw [hL]
    simp
  have hfn2 : faceNormal [⟨0, 0, 0⟩, ⟨1, 0, 0⟩, ⟨0, 1, 0⟩, ⟨0, -9999999999, -200000⟩]
      (0, 1, 3) = ⟨0, 200000 / 10000000001, -(9999999999 / 10000000001)⟩ := by
    have hcross : Vec3.cross
        (posAt [⟨0, 0, 0⟩, ⟨1, 0, 0⟩, ⟨0, 1, 0⟩, ⟨0, -9999999999, -200000⟩] 1 -
          posAt [⟨0, 0, 0⟩, ⟨1, 0, 0⟩, ⟨0, 1, 0⟩, ⟨0, -9999999999, -200000⟩] 0)
        (posAt [⟨0, 0, 0⟩, ⟨1, 0, 0⟩, ⟨0, 1, 0⟩, ⟨0, -9999999999, -200000⟩] 3 -
          posAt [⟨0, 0, 0⟩, ⟨1, 0, 0⟩, ⟨0, 1, 0⟩, ⟨0, -9999999999, -200000⟩] 0) =
        ⟨0, 200000, -9999999999⟩ := by
      norm_num [posAt, List.getD]
    have hL : Vec3.length ⟨0, 200000, -9999999999⟩ = 10000000001 :=
      Vec3.length_eval _ _ (by norm_num) (by simp [Vec3.dot]; norm_num)
    unfold faceNormal
    rw [hcross]
    unfold Vec3.normalize
    rw [hL]
    simp
    norm_num
  have hacc : (accumNormals [⟨0, 0, 0⟩, ⟨1, 0, 0⟩, ⟨0, 1, 0⟩, ⟨0, -9999999999, -200000⟩]
      (triples [0, 1, 2, 0, 1, 3])).getD 0 0 =
      ⟨0, 200000 / 10000000001, 2 / 10000000001⟩ := by
    rw [show triples [0, 1, 2, 0, 1, 3] = [(0, 1, 2), (0, 1, 3)] from rfl]
    rw [accumNormals_getD _ _ 0 (by simp), List.map_cons, List.map_cons, List.map_nil,
      List.sum_cons, List.sum_cons, List.sum_nil, hfn1, hfn2]
    norm_num [occ]
  have hle : Vec3.length (⟨0, 200000 / 10000000001, 2 / 10000000001⟩ : Vec3) ≤ 1 / 10000 :=
    Vec3.length_le_of_dot_le _ _ (by norm_num) (by simp [Vec3.dot]; norm_num)
  have hfin : (calculateNormals [⟨0, 0, 0⟩, ⟨1, 0, 0⟩, ⟨0, 1, 0⟩, ⟨0, -9999999999, -200000⟩]
      [0, 1, 2, 0, 1, 3]).getD 0 0 = ⟨0, 200000 / 10000000001, 2 / 10000000001⟩ := by
    rw [calculateNormals_getD _ _ 0 (by simp), hacc, finalizeNormal,
      if_neg (not_lt.mpr hle)]
  rw [hfin]
  rintro (h1 | h2)
  · rw [h1] at hle
    norm_num at hle
  · have hy := congrArg Vec3.y h2
    simp only at hy
    norm_num at hy

/-! ## Claim C9: per-vertex face centers -/

/-- C9 counterexample: vertex 0 is incident to both triangles of the mesh
with vertices (0,0,0), (3,0,0), (0,3,0), (0,0,3) and index buffer
(0,1,2), (0,1,3), but its stored faceCenter is the centroid (1,0,1) of the
LAST incident triangle, not the average (1, 1/2, 1/2) of the two incident
centroids: the loop assigns, it does not average. -/
theorem c9_counterexample :
    triHas 0 (0, 1, 2) = true ∧ triHas 0 (0, 1, 3) = true ∧
      (calculateFaceCenters [⟨0, 0, 0⟩, ⟨3, 0, 0⟩, ⟨0, 3, 0⟩, ⟨0, 0, 3⟩]
          (List.replicate 4 0) [(0, 1, 2), (0, 1, 3)]).getD 0 0 ≠
        Vec3.smul (1 / 2)
          (centroid [⟨0, 0, 0⟩, ⟨3, 0, 0⟩, ⟨0, 3, 0⟩, ⟨0, 0, 3⟩] (0, 1, 2) +
            centroid [⟨0, 0, 0⟩, ⟨3, 0, 0⟩, ⟨0, 3, 0⟩, ⟨0, 0, 3⟩] (0, 1, 3)) := by
  have hcen2 : centroid [⟨0, 0, 0⟩, ⟨3, 0, 0⟩, ⟨0, 3, 0⟩, ⟨0, 0, 3⟩] (0, 1, 3) =
      ⟨1, 0, 1⟩ := by
    unfold centroid posAt
    norm_num [List.getD]
  have hcen1 : centroid [⟨0, 0, 0⟩, ⟨3, 0, 0⟩, ⟨0, 3, 0⟩, ⟨0, 0, 3⟩] (0, 1, 2) =
      ⟨1, 1, 0⟩ := by
    unfold centroid posAt
    norm_num [List.getD]
  have hres : (calculateFaceCenters [⟨0, 0, 0⟩, ⟨3, 0, 0⟩, ⟨0, 3, 0⟩, ⟨0, 0, 3⟩]
      (List.replicate 4 0) [(0, 1, 2), (0, 1, 3)]).getD 0 0 = ⟨1, 0, 1⟩ := by
    rw [calculateFaceCenters_getD _ _ _ 0 (by simp)]
    rw [show lastIncident 0 [(0, 1, 2), (0, 1, 3)] = some (0, 1, 3) from rfl]
    rw [Option.map_some', Option.getD_some, hcen2]
  refine ⟨rfl, rfl, ?_⟩
  rw [hres, hcen1, hcen2]
  intro hcontra
  have hy := congrArg Vec3.y hcontra
  simp only [Vec3.smul_y, Vec3.add_y] at hy
  norm_num at hy

/-- C9 (amended): each vertex keeps a single canonical faceCenter value (one
per original vertex, no per-face duplication), but it is NOT an average: the
assignment loop overwrites, so the stored value is the centroid of the last
triangle in index-buffer order incident to the vertex, and a vertex incident
to no triangle keeps its pre-pass value. -/
theorem c9_last_writer (pos fc : List Vec3) (tris : List Tri) (v : ℕ)
    (hv : v < fc.length) :
    (∀ t : Tri, lastIncident v tris = some t →
        (calculateFaceCenters pos fc tris).getD v 0 = centroid pos t) ∧
      (lastIncident v tris = none →
        (calculateFaceCenters pos fc tris).getD v 0 = fc.getD v 0) := by
  refine ⟨?_, ?_⟩
  · intro t ht
    rw [calculateFaceCenters_getD pos fc tris v hv, ht, Option.map_some', Option.getD_some]
  · intro ht
    rw [calculateFaceCenters_getD pos fc tris v hv, ht, Option.map_none', Option.getD_none]

/-- C9 witness: the stored faceCenter of vertex 0 in the concrete two-triangle
mesh is the centroid of the last incident triangle. -/
theorem c9_last_writer_witness :
    0 < (List.replicate 4 (0 : Vec3)).length ∧
      ((∀ t : Tri, lastIncident 0 [(0, 1, 2), (0, 1, 3)] = some t →
          (calculateFaceCenters [⟨0, 0, 0⟩, ⟨3, 0, 0⟩, ⟨0, 3, 0⟩, ⟨0, 0, 3⟩]
            (List.replicate 4 0) [(0, 1, 2), (0, 1, 3)]).getD 0 0 =
            centroid [⟨0, 0, 0⟩, ⟨3, 0, 0⟩, ⟨0, 3, 0⟩, ⟨0, 0, 3⟩] t) ∧
        (lastIncident 0 [(0, 1, 2), (0, 1, 3)] = none →
          (calculateFaceCenters [⟨0, 0, 0⟩, ⟨3, 0, 0⟩, ⟨0, 3, 0⟩, ⟨0, 0, 3⟩]
            (List.replicate 4 0) [(0, 1, 2), (0, 1, 3)]).getD 0 0 =
            (List.replicate 4 (0 : Vec3)).getD 0 0)) :=
  ⟨by simp,
    c9_last_writer [⟨0, 0, 0⟩, ⟨3, 0, 0⟩, ⟨0, 3, 0⟩, ⟨0, 0, 3⟩]
      (List.replicate 4 0) [(0, 1, 2), (0, 1, 3)] 0 (by simp)⟩

/-! ## Claim C3: buffer re-upload after explosion mutations -/

/-- C3 counterexample: starting from the state right after load and setup
(buffer uploaded from the load-time positions (−1,0,0), (1,0,0), snapshot
captured), moving the explode slider to 1 runs updateExplosion — the model
positions become (−2,0,0), (2,0,0) — but the handler performs no buffer
update, so the uploaded vertex data no longer matches the model's current
positions. -/
theorem c3_counterexample :
    (stepEvent
        { gpuVertices := [⟨⟨-1, 0, 0⟩, 0, 0⟩, ⟨⟨1, 0, 0⟩, 0, 0⟩]
          offPositions := [⟨-1, 0, 0⟩, ⟨1, 0, 0⟩]
          snapshot := some [⟨-1, 0, 0⟩, ⟨1, 0, 0⟩]
          explodeFactor := 0 }
        (AppEvent.slider 1)).gpuVertices.map MeshVertex.position ≠
      (stepEvent
        { gpuVertices := [⟨⟨-1, 0, 0⟩, 0, 0⟩, ⟨⟨1, 0, 0⟩, 0, 0⟩]
          offPositions := [⟨-1, 0, 0⟩, ⟨1, 0, 0⟩]
          snapshot := some [⟨-1, 0, 0⟩, ⟨1, 0, 0⟩]
          explodeFactor := 0 }
        (AppEvent.slider 1)).offPositions := by
  have hc : explosionCenter [⟨-1, 0, 0⟩, ⟨1, 0, 0⟩] = ⟨0, 0, 0⟩ := by
    unfold explosionCenter
    simp [List.sum_cons, List.sum_nil]
  have hLm : Vec3.length ⟨-1, 0, 0⟩ = 1 :=
    Vec3.length_eval _ _ (by norm_num) (by norm_num [Vec3.dot])
  have hLp : Vec3.length ⟨1, 0, 0⟩ = 1 :=
    Vec3.length_eval _ _ (by norm_num) (by norm_num [Vec3.dot])
  have hv0 : explodeVertex ⟨0, 0, 0⟩ 1 ⟨-1, 0, 0⟩ = ⟨-2, 0, 0⟩ := by
    simp only [explodeVertex]
    rw [show (⟨-1, 0, 0⟩ : Vec3) - ⟨0, 0, 0⟩ = ⟨-1, 0, 0⟩ by simp]
    rw [if_pos (by rw [hLm]; norm_num)]
    unfold Vec3.normalize
    rw [hLm]
    simp
    norm_num
  have hv1 : explodeVertex ⟨0, 0, 0⟩ 1 ⟨1, 0, 0⟩ = ⟨2, 0, 0⟩ := by
    simp only [explodeVertex]
    rw [show (⟨1, 0, 0⟩ : Vec3) - ⟨0, 0, 0⟩ = ⟨1, 0, 0⟩ by simp]
    rw [if_pos (by rw [hLp]; norm_num)]
    unfold Vec3.normalize
    rw [hLp]
    simp
    norm_num
  have hoff : (stepEvent
      { gpuVertices := [⟨⟨-1, 0, 0⟩, 0, 0⟩, ⟨⟨1, 0, 0⟩, 0, 0⟩]
        offPositions := [⟨-1, 0, 0⟩, ⟨1, 0, 0⟩]
        snapshot := some [⟨-1, 0, 0⟩, ⟨1, 0, 0⟩]
        explodeFactor := 0 }
      (AppEvent.slider 1)).offPositions = [⟨-2, 0, 0⟩, ⟨2, 0, 0⟩] := by
    show ([⟨-1, 0, 0⟩, ⟨1, 0, 0⟩] : List Vec3).map
        (explodeVertex (explosionCenter [⟨-1, 0, 0⟩, ⟨1, 0, 0⟩]) 1) = _
    rw [hc, List.map_cons, List.map_cons, List.map_nil, hv0, hv1]
  rw [hoff]
  rw [show (stepEvent
      { gpuVertices := [⟨⟨-1, 0, 0⟩, 0, 0⟩, ⟨⟨1, 0, 0⟩, 0, 0⟩]
        offPositions := [⟨-1, 0, 0⟩, ⟨1, 0, 0⟩]
        snapshot := some [⟨-1, 0, 0⟩, ⟨1, 0, 0⟩]
        explodeFactor := 0 }
      (AppEvent.slider 1)).gpuVertices.map MeshVertex.position =
      [⟨-1, 0, 0⟩, ⟨1, 0, 0⟩] from rfl]
  intro hcontra
  have h0 := congrArg (fun l : List Vec3 => (l.getD 0 0).x) hcontra
  simp only [List.getD_cons_zero] at h0
  norm_num at h0

/-- C3 (amended): the render loop never rebuilds or re-uploads the per-vertex
buffer after an explosion mutation: across every sequence of slider moves
(updateExplosion calls) and N-key resets (resetExplosion calls), the
uploaded vertex data stays exactly what setupMesh uploaded at load time —
the rendered buffer tracks the load-time positions, not the mutated model
positions (the visible explode displacement comes from the vertex shader's
explodeFactor uniform instead). -/
theorem c3_buffer_never_reuploaded (s : AppState) (es : List AppEvent) :
    (runEvents s es).gpuVertices = s.gpuVertices := by
  induction es generalizing s with
  | nil => rfl
  | cons e rest ih =>
      rw [runEvents, List.foldl_cons,
        show rest.foldl stepEvent (stepEvent s e) = runEvents (stepEvent s e) rest from rfl,
        ih (stepEvent s e)]
      cases e with
      | slider f => rfl
      | keyN => rfl
